import Mathlib

/-
Formal model of the pure computation helpers of the LWPFrontend React
application: freshness labelling, 52-week range positioning, moving-average
signal classification, strategy-formula validation, portfolio aggregation and
currency formatting.

Modelling conventions:
- JavaScript numbers are modelled as rationals (no floating point in scope of
  the verified properties).
- Timestamps are modelled as integers counting milliseconds since the epoch
  (the value of Date.getTime). A nullable timestamp is an Option Int.
- Date.setHours(0,0,0,0) is modelled as truncation to the enclosing multiple
  of the day length (midnight of the day containing the instant).
- Math.floor on an exact rational quotient of integers is integer floor
  division (Int.fdiv).
-/

/-- Milliseconds in one day, 1000 * 60 * 60 * 24 as written in the source. -/
def msPerDay : Int := 1000 * 60 * 60 * 24

/-- Model of Date.setHours(0,0,0,0): truncate a millisecond timestamp to the
midnight that starts its day. -/
def toMidnight (t : Int) : Int := msPerDay * (t.fdiv msPerDay)

/-- getDaysAgo from src/pages/ListStocks.tsx lines 20-42 (an identical copy
lives in src/pages/Login.tsx). The nullable date argument is the first
parameter; the ambient clock reading (new Date()) is passed explicitly as
now. Both sides are reset to midnight, differenced, and the difference is
floor-divided by the day length. -/
def getDaysAgo (date : Option Int) (now : Int) : String :=
  match date with
  | none => ""
  | some d =>
    let priceDate := toMidnight d
    let nowMidnight := toMidnight now
    let diffTime := nowMidnight - priceDate
    let diffDays := diffTime.fdiv msPerDay
    if diffDays = 0 then "Today"
    else if diffDays = 1 then "1 day ago"
    else if diffDays < 0 then "Future date"
    else toString diffDays ++ " days ago"

/-- The day difference used by getDaysAgo, named so that specifications can
refer to it: both instants normalized to midnight, then differenced in days.
First argument is the data timestamp, second the clock reading. -/
def midnightDayDiff (d now : Int) : Int :=
  (toMidnight now - toMidnight d).fdiv msPerDay

/-- calculate52WeekPosition from src/pages/ListStocks.tsx lines 44-51
(identical copy in src/pages/Login.tsx). Null inputs and a degenerate range
give 0; otherwise the relative position in the range, scaled to percent and
clamped to [0, 100] by Math.max(0, Math.min(100, position)). -/
def calculate52WeekPosition (current low high : Option ℚ) : ℚ :=
  match current, low, high with
  | some c, some l, some h =>
    if h = l then 0
    else
      let position := ((c - l) / (h - l)) * 100
      max 0 (min 100 position)
  | _, _, _ => 0

/-- Result record of getMASignal: the signal label together with the two
display colors returned by the source. -/
structure MASignalResult where
  signal : String
  color : String
  chipColor : String
deriving DecidableEq, Repr

/-- getMASignal from src/pages/ListStocks.tsx lines 60-96 (identical copy in
src/pages/Login.tsx). A missing (null/undefined) or zero price or average is
falsy in the JavaScript guard and yields the No Data result; otherwise the
three boolean comparisons select the signal by the cascade of if statements
of the source. -/
def getMASignal (closePrice ma20 ma200 : Option ℚ) : MASignalResult :=
  match closePrice, ma20, ma200 with
  | some p, some m20, some m200 =>
    if p = 0 ∨ m20 = 0 ∨ m200 = 0 then
      ⟨"No Data", "text.disabled", "default"⟩
    else
      let aboveMA20 : Bool := p > m20
      let aboveMA200 : Bool := p > m200
      let ma20AboveMA200 : Bool := m20 > m200
      if aboveMA20 && aboveMA200 && ma20AboveMA200 then
        ⟨"Strong Bullish", "success.main", "success"⟩
      else if aboveMA20 && aboveMA200 then
        ⟨"Bullish", "success.light", "success"⟩
      else if !aboveMA20 && !aboveMA200 && !ma20AboveMA200 then
        ⟨"Strong Bearish", "error.main", "error"⟩
      else if !aboveMA20 && !aboveMA200 then
        ⟨"Bearish", "error.light", "error"⟩
      else
        ⟨"Neutral", "warning.main", "warning"⟩
  | _, _, _ => ⟨"No Data", "text.disabled", "default"⟩

/-- The staleness test of the price_last_updated column renderer in
src/pages/ListStocks.tsx lines 519-531: the raw timestamp is compared with
the instant seven days of milliseconds before now, with no midnight
normalization. A null value short-circuits to false. -/
def stocksPriceIsStale (value : Option Int) (now : Int) : Bool :=
  match value with
  | none => false
  | some t => t < now - 7 * msPerDay

/-- formatDaysAgo from the holdings screen (src/unnamed/part_005 lines
204-217, also src/pages/Holdings/ListHoldings.tsx): the absolute raw
millisecond difference is floor-divided by the day length, with no midnight
normalization and no future-date branch. -/
def formatDaysAgo (dateString : Int) (now : Int) : String :=
  let diffTime := |now - dateString|
  let diffDays := diffTime.fdiv msPerDay
  if diffDays = 0 then "Today"
  else if diffDays = 1 then "1 day ago"
  else toString diffDays ++ " days ago"

/-- getDaysAgoColor from the holdings screen (src/unnamed/part_005 lines
219-226): stale coloring when the absolute raw day difference exceeds 2. -/
def getDaysAgoColor (dateString : Int) (now : Int) : String :=
  let diffTime := |now - dateString|
  let diffDays := diffTime.fdiv msPerDay
  if diffDays > 2 then "error.main" else "text.secondary"

/-- One row of a strategy formula: a criterion name and a weight, as in the
FormulaCriteria shape edited by the strategies dialog (src/unnamed/part_004). -/
structure FormulaCriteria where
  criteria_name : String
  weight : ℚ
deriving DecidableEq, Repr

/-- The three rejection reasons of validateFormula, in the order the source
can produce them. The source reports them as error-banner strings; they are
modelled as an enumeration. -/
inductive ValidationError where
  | weightSumMismatch
  | emptyCriterionName
  | weightOutOfRange
deriving DecidableEq, Repr

/-- Model of the JavaScript String.prototype.trim: drop whitespace from both
ends of the character list. -/
def jsTrim (s : String) : String :=
  String.mk (((s.data.dropWhile Char.isWhitespace).reverse.dropWhile
    Char.isWhitespace).reverse)

/-- The for..of loop of validateFormula: items are scanned in order, the
trimmed-name check of an item precedes its weight-range check, and the first
violation is reported. -/
def checkItems : List FormulaCriteria → Option ValidationError
  | [] => none
  | item :: rest =>
    if jsTrim item.criteria_name = "" then some .emptyCriterionName
    else if item.weight < 0 ∨ item.weight > 1 then some .weightOutOfRange
    else checkItems rest

/-- Sum of the weights of a formula, the reduce of the source. -/
def weightTotal (formula : List FormulaCriteria) : ℚ :=
  (formula.map (·.weight)).sum

/-- validateFormula from src/unnamed/part_004 lines 155-175. The weight-sum
tolerance check runs first; only if it passes are the individual items
scanned. The result is none when validation succeeds and some error for the
first rejection, mirroring the early returns of the source. -/
def validateFormula (formula : List FormulaCriteria) : Option ValidationError :=
  let totalWeight := weightTotal formula
  if |totalWeight - 1| > 1/100 then some .weightSumMismatch
  else checkItems formula

/-- One holding as seen by the summary computation: its invested and current
values. -/
structure HoldingValue where
  invested_value : ℚ
  current_value : ℚ
deriving DecidableEq, Repr

/-- The four asset-class buckets of the holdings payload. -/
structure HoldingsBuckets where
  stocks : List HoldingValue
  etfs : List HoldingValue
  mutual_funds : List HoldingValue
  bonds : List HoldingValue
deriving DecidableEq, Repr

/-- Result record of calculateFilteredSummary. -/
structure FilteredSummary where
  totalInvested : ℚ
  totalCurrentValue : ℚ
  totalProfitLoss : ℚ
  totalProfitLossPercentage : ℚ
  totalCount : ℕ
deriving DecidableEq, Repr

/-- Sum of invested_value over a bucket (the forEach accumulation of the
source, written as a list sum). -/
def sumInvested (l : List HoldingValue) : ℚ :=
  (l.map (·.invested_value)).sum

/-- Sum of current_value over a bucket. -/
def sumCurrent (l : List HoldingValue) : ℚ :=
  (l.map (·.current_value)).sum

/-- calculateFilteredSummary from src/pages/Holdings/ListHoldings.tsx lines
91-141 (identical copy in src/unnamed/part_005). Each of the four buckets
contributes to the three accumulators exactly when its name is in the
selected asset types; profit-loss is current minus invested, and the
percentage is guarded so that a non-positive invested total yields 0. -/
def calculateFilteredSummary (holdings : HoldingsBuckets)
    (selectedAssetTypes : List String) : FilteredSummary :=
  let totalInvested :=
    (if selectedAssetTypes.contains "stocks" then sumInvested holdings.stocks else 0)
    + (if selectedAssetTypes.contains "etfs" then sumInvested holdings.etfs else 0)
    + (if selectedAssetTypes.contains "mutual_funds" then sumInvested holdings.mutual_funds else 0)
    + (if selectedAssetTypes.contains "bonds" then sumInvested holdings.bonds else 0)
  let totalCurrentValue :=
    (if selectedAssetTypes.contains "stocks" then sumCurrent holdings.stocks else 0)
    + (if selectedAssetTypes.contains "etfs" then sumCurrent holdings.etfs else 0)
    + (if selectedAssetTypes.contains "mutual_funds" then sumCurrent holdings.mutual_funds else 0)
    + (if selectedAssetTypes.contains "bonds" then sumCurrent holdings.bonds else 0)
  let totalCount :=
    (if selectedAssetTypes.contains "stocks" then holdings.stocks.length else 0)
    + (if selectedAssetTypes.contains "etfs" then holdings.etfs.length else 0)
    + (if selectedAssetTypes.contains "mutual_funds" then holdings.mutual_funds.length else 0)
    + (if selectedAssetTypes.contains "bonds" then holdings.bonds.length else 0)
  let totalProfitLoss := totalCurrentValue - totalInvested
  let totalProfitLossPercentage :=
    if totalInvested > 0 then (totalProfitLoss / totalInvested) * 100 else 0
  ⟨totalInvested, totalCurrentValue, totalProfitLoss, totalProfitLossPercentage, totalCount⟩

/-- Model of Number.toFixed(2) on a nonnegative rational: the amount in
hundredths (paise), rounded to the nearest integer with halves rounded up. -/
def toFixed2Paise (q : ℚ) : ℕ :=
  (Int.floor (q * 100 + 1/2)).toNat

/-- Two-digit zero-padded rendering of a number below 100, the shape of the
fractional part produced by toFixed(2). -/
def pad2 (k : ℕ) : String :=
  if k < 10 then "0" ++ Nat.repr k else Nat.repr k

/-- Model of one position of the global regex replace
otherNumbers.replace of the source: walking a digit list whose total length
is n, a comma is inserted before the character at index i exactly when i is
not the start of the string and the remaining length n - i is a positive
multiple of two, which is the match condition of the lookahead pattern on an
all-digit string. -/
def commaAux (n : ℕ) : ℕ → List Char → List Char
  | _, [] => []
  | i, c :: cs =>
    (if 0 < i ∧ (n - i) % 2 = 0 then [',', c] else [c]) ++ commaAux n (i + 1) cs

/-- The full regex replace of the source applied to a digit list. -/
def insertCommasList (cs : List Char) : List Char :=
  commaAux cs.length 0 cs

/-- formatCurrency from src/pages/Holdings/ListHoldings.tsx lines 143-173
(identical copy in src/unnamed/part_005), INR branch. The integer part of
the two-decimal rendering is split into its last three characters and the
rest, the rest receives the pair commas of the regex replace, and sign,
rupee symbol and two-decimal fraction are assembled around it. String
substring operations become take and drop on the digit list. The non-INR
branch delegates to Intl.NumberFormat and is outside this model. -/
def formatCurrencyINR (value : ℚ) : String :=
  let absValue := |value|
  let paise := toFixed2Paise absValue
  let integerPart : List Char := (Nat.repr (paise / 100)).data
  let len := integerPart.length
  let lastThree := integerPart.drop (len - 3)
  let otherNumbers := integerPart.take (len - 3)
  let lastThree := if otherNumbers ≠ [] then ',' :: lastThree else lastThree
  let formattedInteger := insertCommasList otherNumbers ++ lastThree
  (if value < 0 then "-" else "") ++ "₹" ++ String.mk formattedInteger
    ++ "." ++ pad2 (paise % 100)

/-- Modelled from the spec: grouping a digit list in pairs, starting from the
right, so that when the length is odd the leftmost group is a single digit.
The recursion peels two digits from the front when the total length is even
(the remaining length after the pair is even) and one when it is odd, which
is exactly pairing from the right. -/
def pairsFromRight : List Char → List (List Char)
  | [] => []
  | [c] => [[c]]
  | c :: c2 :: rest =>
    if rest.length % 2 = 0 then [c, c2] :: pairsFromRight rest
    else [c] :: pairsFromRight (c2 :: rest)

/-- Join digit groups with comma separators. -/
def joinGroups : List (List Char) → List Char
  | [] => []
  | [g] => g
  | g :: g2 :: gs => g ++ ',' :: joinGroups (g2 :: gs)

/-- Modelled from the spec: the Indian grouping of an integer digit string —
the last three digits form one group and all digits to the left of them are
grouped in pairs. -/
def specIndianGroups (ds : List Char) : List (List Char) :=
  if ds.length ≤ 3 then [ds]
  else pairsFromRight (ds.take (ds.length - 3)) ++ [ds.drop (ds.length - 3)]

/-- Modelled from the spec: the INR rendering described by the specification
— minus sign before the currency symbol for negative amounts, the rupee
symbol, the Indian-grouped integer part, and a two-digit fraction. -/
def specFormatINR (value : ℚ) : String :=
  let paise := toFixed2Paise |value|
  (if value < 0 then "-" else "") ++ "₹"
    ++ String.mk (joinGroups (specIndianGroups (Nat.repr (paise / 100)).data))
    ++ "." ++ pad2 (paise % 100)

/-- Reformulation of the position-based comma rule for positions after the
first character: there the rule depends only on the remaining length, so the
walk can be written structurally. Used to relate the regex model to the
grouping of the specification. -/
def insertAllSimple : List Char → List Char
  | [] => []
  | c :: cs =>
    (if (cs.length + 1) % 2 = 0 then [',', c] else [c]) ++ insertAllSimple cs

/-- The concatenation of the buckets whose names are selected, in source
order; the accumulators of calculateFilteredSummary sum exactly over this
list. -/
def selectedHoldings (holdings : HoldingsBuckets) (sel : List String) :
    List HoldingValue :=
  (if sel.contains "stocks" then holdings.stocks else [])
  ++ (if sel.contains "etfs" then holdings.etfs else [])
  ++ (if sel.contains "mutual_funds" then holdings.mutual_funds else [])
  ++ (if sel.contains "bonds" then holdings.bonds else [])

/-- C1: getMASignal is total (it is a Lean function) and matches the table of
the specification: any absent or zero input yields the No Data signal, and
otherwise, with a = price above ma20, b = price above ma200, c = ma20 above
ma200, the signal is Strong Bullish iff a and b and c, Bullish iff a and b
and not c, Strong Bearish iff none of the three, Bearish iff only c, and
Neutral exactly in the remaining combinations. -/
theorem getMASignal_matches_table :
    (∀ ma20 ma200, (getMASignal none ma20 ma200).signal = "No Data") ∧
    (∀ p ma200, (getMASignal p none ma200).signal = "No Data") ∧
    (∀ p ma20, (getMASignal p ma20 none).signal = "No Data") ∧
    (∀ p m20 m200 : ℚ, p = 0 ∨ m20 = 0 ∨ m200 = 0 →
      (getMASignal (some p) (some m20) (some m200)).signal = "No Data") ∧
    (∀ p m20 m200 : ℚ, p ≠ 0 → m20 ≠ 0 → m200 ≠ 0 →
      ((getMASignal (some p) (some m20) (some m200)).signal = "Strong Bullish" ↔
        (p > m20 ∧ p > m200 ∧ m20 > m200)) ∧
      ((getMASignal (some p) (some m20) (some m200)).signal = "Bullish" ↔
        (p > m20 ∧ p > m200 ∧ ¬m20 > m200)) ∧
      ((getMASignal (some p) (some m20) (some m200)).signal = "Strong Bearish" ↔
        (¬p > m20 ∧ ¬p > m200 ∧ ¬m20 > m200)) ∧
      ((getMASignal (some p) (some m20) (some m200)).signal = "Bearish" ↔
        (¬p > m20 ∧ ¬p > m200 ∧ m20 > m200)) ∧
      ((getMASignal (some p) (some m20) (some m200)).signal = "Neutral" ↔
        ¬((p > m20 ∧ p > m200 ∧ m20 > m200) ∨ (p > m20 ∧ p > m200 ∧ ¬m20 > m200) ∨
          (¬p > m20 ∧ ¬p > m200 ∧ ¬m20 > m200) ∨ (¬p > m20 ∧ ¬p > m200 ∧ m20 > m200)))) := by
  refine ⟨?_, ?_, ?_, ?_, ?_⟩
  · intro ma20 ma200; cases ma20 <;> cases ma200 <;> rfl
  · intro p ma200; cases p <;> cases ma200 <;> rfl
  · intro p ma20; cases p <;> cases ma20 <;> rfl
  · intro p m20 m200 h
    simp only [getMASignal]
    rw [if_pos h]
  · intro p m20 m200 hp h20 h200
    have hfalsy : ¬(p = 0 ∨ m20 = 0 ∨ m200 = 0) := by
      push_neg; exact ⟨hp, h20, h200⟩
    by_cases ha : p > m20 <;> by_cases hb : p > m200 <;> by_cases hc : m20 > m200 <;>
      simp [getMASignal, hfalsy, ha, hb, hc]

/-- Witness for getMASignal_matches_table at concrete inputs 3, 2, 1. -/
theorem getMASignal_matches_table_witness :
    (getMASignal (some 3) (some 2) (some 1)).signal = "Strong Bullish" :=
  ((getMASignal_matches_table.2.2.2.2 3 2 1 (by norm_num) (by norm_num)
    (by norm_num)).1).mpr (by norm_num)

/-- C2: calculate52WeekPosition returns 0 when any input is absent or the
range is degenerate, and otherwise clamps the scaled relative position to
[0, 100]; consequently for low < high the result is within [0, 100], the low
endpoint maps to 0 and the high endpoint maps to 100. -/
theorem calculate52WeekPosition_spec :
    (∀ l h, calculate52WeekPosition none l h = 0) ∧
    (∀ c h, calculate52WeekPosition c none h = 0) ∧
    (∀ c l, calculate52WeekPosition c l none = 0) ∧
    (∀ c l h : ℚ, h = l → calculate52WeekPosition (some c) (some l) (some h) = 0) ∧
    (∀ c l h : ℚ, h ≠ l →
      calculate52WeekPosition (some c) (some l) (some h)
        = max 0 (min 100 (((c - l) / (h - l)) * 100))) ∧
    (∀ c l h : ℚ, l < h →
      0 ≤ calculate52WeekPosition (some c) (some l) (some h) ∧
      calculate52WeekPosition (some c) (some l) (some h) ≤ 100) ∧
    (∀ l h : ℚ, l < h → calculate52WeekPosition (some l) (some l) (some h) = 0) ∧
    (∀ l h : ℚ, l < h → calculate52WeekPosition (some h) (some l) (some h) = 100) := by
  have hclamp : ∀ c l h : ℚ, h ≠ l →
      calculate52WeekPosition (some c) (some l) (some h)
        = max 0 (min 100 (((c - l) / (h - l)) * 100)) := by
    intro c l h hne
    simp only [calculate52WeekPosition]
    rw [if_neg hne]
  refine ⟨?_, ?_, ?_, ?_, hclamp, ?_, ?_, ?_⟩
  · intro l h; cases l <;> cases h <;> rfl
  · intro c h; cases c <;> cases h <;> rfl
  · intro c l; cases c <;> cases l <;> rfl
  · intro c l h he
    simp only [calculate52WeekPosition]
    rw [if_pos he]
  · intro c l h hlt
    have hne : h ≠ l := ne_of_gt hlt
    rw [hclamp c l h hne]
    constructor
    · exact le_max_left 0 _
    · exact max_le (by norm_num) (min_le_left _ _)
  · intro l h hlt
    rw [hclamp l l h (ne_of_gt hlt)]
    simp
  · intro l h hlt
    rw [hclamp h l h (ne_of_gt hlt)]
    have hne : h - l ≠ 0 := sub_ne_zero.mpr (ne_of_gt hlt)
    rw [div_self hne]
    norm_num

/-- Witness for calculate52WeekPosition_spec: the high endpoint of the range
0 to 10 is at position 100. -/
theorem calculate52WeekPosition_spec_witness :
    calculate52WeekPosition (some 10) (some 0) (some 10) = 100 :=
  calculate52WeekPosition_spec.2.2.2.2.2.2.2 0 10 (by norm_num)

/-- The item scan succeeds exactly when every item has a nonempty trimmed
name and a weight in [0, 1]. -/
theorem checkItems_eq_none_iff (l : List FormulaCriteria) :
    checkItems l = none ↔
      ∀ c ∈ l, jsTrim c.criteria_name ≠ "" ∧ 0 ≤ c.weight ∧ c.weight ≤ 1 := by
  induction l with
  | nil => simp [checkItems]
  | cons item rest ih =>
    simp only [checkItems]
    split_ifs with h1 h2
    · constructor
      · intro h; exact absurd h (by simp)
      · intro h; exact absurd h1 (h item (List.mem_cons_self item rest)).1
    · constructor
      · intro h; exact absurd h (by simp)
      · intro h
        rcases h2 with h2 | h2
        · exact absurd h2 (not_lt.mpr (h item (List.mem_cons_self item rest)).2.1)
        · exact absurd h2 (not_lt.mpr (h item (List.mem_cons_self item rest)).2.2)
    · rw [ih, List.forall_mem_cons]
      push_neg at h2
      exact (and_iff_right ⟨h1, h2.1, h2.2⟩).symm

/-- validateFormula succeeds exactly when the weight sum is within the
tolerance and every item passes the per-item checks. -/
theorem validateFormula_eq_none_iff (f : List FormulaCriteria) :
    validateFormula f = none ↔
      (|weightTotal f - 1| ≤ 1/100 ∧
        ∀ c ∈ f, jsTrim c.criteria_name ≠ "" ∧ 0 ≤ c.weight ∧ c.weight ≤ 1) := by
  simp only [validateFormula]
  split_ifs with h
  · constructor
    · intro hh; exact absurd hh (by simp)
    · intro hh; exact absurd h (not_lt.mpr hh.1)
  · rw [checkItems_eq_none_iff]
    exact (and_iff_right (not_lt.mp h)).symm

/-- If every name passes and some weight is out of range, the item scan
reports the out-of-range error. -/
theorem checkItems_out_of_range (l : List FormulaCriteria)
    (hnames : ∀ c ∈ l, jsTrim c.criteria_name ≠ "")
    (hbad : ∃ c ∈ l, c.weight < 0 ∨ c.weight > 1) :
    checkItems l = some ValidationError.weightOutOfRange := by
  induction l with
  | nil => simp at hbad
  | cons item rest ih =>
    simp only [checkItems]
    rw [if_neg (hnames item (List.mem_cons_self item rest))]
    by_cases hw : item.weight < 0 ∨ item.weight > 1
    · rw [if_pos hw]
    · rw [if_neg hw]
      apply ih (fun c hc => hnames c (List.mem_cons_of_mem item hc))
      rcases hbad with ⟨c, hc, hb⟩
      rcases List.mem_cons.mp hc with rfl | hc2
      · exact absurd hb hw
      · exact ⟨c, hc2, hb⟩

/-- C3: validateFormula succeeds iff every criterion has a nonempty trimmed
name, every weight lies in [0, 1] and the weight sum is within 0.01 of 1;
the formula pe_ratio 0.6 / pegy_index 0.4 passes, pe_ratio 0.5 /
pegy_index 0.6 fails with the weight-sum-mismatch error, and an empty name
with weight 1 fails with the empty-criterion-name error. -/
theorem validateFormula_success_iff :
    (∀ f : List FormulaCriteria,
      validateFormula f = none ↔
        (|weightTotal f - 1| ≤ 1/100 ∧
          ∀ c ∈ f, jsTrim c.criteria_name ≠ "" ∧ 0 ≤ c.weight ∧ c.weight ≤ 1)) ∧
    validateFormula [⟨"pe_ratio", 3/5⟩, ⟨"pegy_index", 2/5⟩] = none ∧
    validateFormula [⟨"pe_ratio", 1/2⟩, ⟨"pegy_index", 3/5⟩]
      = some ValidationError.weightSumMismatch ∧
    validateFormula [⟨"", 1⟩] = some ValidationError.emptyCriterionName := by
  refine ⟨validateFormula_eq_none_iff, ?_, ?_, ?_⟩
  · simp only [validateFormula, checkItems]
    split_ifs with h1 h2 h3 h4 h5
    · exact absurd h1 (by norm_num [weightTotal])
    · exact absurd h2 (by decide)
    · exact absurd h3 (by norm_num)
    · exact absurd h4 (by decide)
    · exact absurd h5 (by norm_num)
    · rfl
  · simp only [validateFormula]
    split_ifs with h1
    · rfl
    · exact (h1 (by norm_num [weightTotal, lt_abs])).elim
  · simp only [validateFormula, checkItems]
    split_ifs with h1 h2 h3
    · exact absurd h1 (by norm_num [weightTotal])
    · rfl
    · exact absurd (by decide : jsTrim "" = "") h2
    · exact absurd (by decide : jsTrim "" = "") h2

/-- Witness for validateFormula_success_iff: the passing example formula. -/
theorem validateFormula_success_iff_witness :
    validateFormula [⟨"pe_ratio", 3/5⟩, ⟨"pegy_index", 2/5⟩] = none :=
  validateFormula_success_iff.2.1

/-- C8 counterexample: the single-criterion formula with weight 2 contains an
out-of-range weight, yet validation does not report the weight-out-of-range
error for it (the weight-sum check runs first and reports the sum mismatch). -/
theorem weightOutOfRange_not_reported_counterexample :
    (∃ c ∈ ([⟨"a", 2⟩] : List FormulaCriteria), c.weight < 0 ∨ c.weight > 1) ∧
    validateFormula [⟨"a", 2⟩] ≠ some ValidationError.weightOutOfRange := by
  constructor
  · exact ⟨⟨"a", 2⟩, List.mem_cons_self _ _, Or.inr (by norm_num)⟩
  · have hv : validateFormula [⟨"a", 2⟩] = some ValidationError.weightSumMismatch := by
      simp only [validateFormula]
      split_ifs with h1
      · rfl
      · exact (h1 (by norm_num [weightTotal, lt_abs])).elim
    rw [hv]
    decide

/-- C8 amended: a formula containing a weight outside [0, 1] is always
rejected, and the rejection carries the weight-out-of-range error provided
the weight sum is within the tolerance and every trimmed name is nonempty
(otherwise the earlier sum or name check reports its own error first). -/
theorem validateFormula_out_of_range_amended (f : List FormulaCriteria)
    (hbad : ∃ c ∈ f, c.weight < 0 ∨ c.weight > 1) :
    validateFormula f ≠ none ∧
    (|weightTotal f - 1| ≤ 1/100 → (∀ c ∈ f, jsTrim c.criteria_name ≠ "") →
      validateFormula f = some ValidationError.weightOutOfRange) := by
  constructor
  · intro hnone
    obtain ⟨c, hc, hb⟩ := hbad
    have hgood := ((validateFormula_eq_none_iff f).mp hnone).2 c hc
    rcases hb with hb | hb
    · exact absurd hb (not_lt.mpr hgood.2.1)
    · exact absurd hb (not_lt.mpr hgood.2.2)
  · intro hsum hnames
    simp only [validateFormula]
    rw [if_neg (not_lt.mpr hsum)]
    exact checkItems_out_of_range f hnames hbad

/-- Witness for validateFormula_out_of_range_amended: weights -0.5 and 1.5
sum to 1, all names are present, and validation reports the out-of-range
error. -/
theorem validateFormula_out_of_range_amended_witness :
    validateFormula [⟨"a", -(1/2)⟩, ⟨"b", 3/2⟩]
      = some ValidationError.weightOutOfRange :=
  (validateFormula_out_of_range_amended _
    ⟨⟨"a", -(1/2)⟩, List.mem_cons_self _ _, Or.inl (by norm_num)⟩).2
    (by norm_num [weightTotal, abs_le]) (by decide)

/-- C4: calculateFilteredSummary sums invested and current values exactly
over the holdings of the selected asset classes, profit-loss is current
minus invested, the percentage is the 100-scaled ratio when the invested
total is positive and exactly 0 when the invested total is 0, and an empty
selection yields the all-zero summary with no division fault. -/
theorem calculateFilteredSummary_spec :
    ∀ (h : HoldingsBuckets) (sel : List String),
      (calculateFilteredSummary h sel).totalInvested
        = sumInvested (selectedHoldings h sel) ∧
      (calculateFilteredSummary h sel).totalCurrentValue
        = sumCurrent (selectedHoldings h sel) ∧
      (calculateFilteredSummary h sel).totalProfitLoss
        = (calculateFilteredSummary h sel).totalCurrentValue
          - (calculateFilteredSummary h sel).totalInvested ∧
      ((calculateFilteredSummary h sel).totalInvested > 0 →
        (calculateFilteredSummary h sel).totalProfitLossPercentage
          = ((calculateFilteredSummary h sel).totalProfitLoss
              / (calculateFilteredSummary h sel).totalInvested) * 100) ∧
      ((calculateFilteredSummary h sel).totalInvested = 0 →
        (calculateFilteredSummary h sel).totalProfitLossPercentage = 0) ∧
      calculateFilteredSummary h [] = ⟨0, 0, 0, 0, 0⟩ := by
  intro h sel
  refine ⟨?_, ?_, rfl, ?_, ?_, ?_⟩
  · simp only [calculateFilteredSummary, selectedHoldings, sumInvested,
      List.map_append, List.sum_append]
    split_ifs <;> simp
  · simp only [calculateFilteredSummary, selectedHoldings, sumCurrent,
      List.map_append, List.sum_append]
    split_ifs <;> simp
  · intro hpos
    simp only [calculateFilteredSummary] at hpos ⊢
    rw [if_pos hpos]
  · intro hz
    simp only [calculateFilteredSummary] at hz ⊢
    rw [hz, if_neg (lt_irrefl 0)]
  · simp [calculateFilteredSummary]

/-- Witness for calculateFilteredSummary_spec: a single selected stock
invested at 100 with current value 150 yields a 50 percent profit. -/
theorem calculateFilteredSummary_spec_witness :
    (calculateFilteredSummary ⟨[⟨100, 150⟩], [], [], []⟩
      ["stocks"]).totalProfitLossPercentage = 50 :=
  ((calculateFilteredSummary_spec ⟨[⟨100, 150⟩], [], [], []⟩
    ["stocks"]).2.2.2.1 (by norm_num [calculateFilteredSummary, sumInvested])).trans
    (by norm_num [calculateFilteredSummary, sumInvested, sumCurrent])

/-- C6 counterexample: one millisecond after the seventh midnight boundary,
the stocks-screen staleness flag is already true although the
midnight-normalized day difference is exactly 7, not more than 7 — the flag
is not computed at day granularity. -/
theorem staleness_not_day_granularity_counterexample :
    ¬ (stocksPriceIsStale (some 0) (7 * msPerDay + 1) = true ↔
        midnightDayDiff 0 (7 * msPerDay + 1) > 7) := by
  decide

/-- C6 amended: both staleness computations work on raw millisecond
differences with no midnight normalization: the stocks screen flags a
present timestamp as stale exactly when it lies more than seven days of
milliseconds before now, and the holdings screen colors as stale exactly
when the floor of the absolute difference in days exceeds 2. -/
theorem staleness_raw_ms_amended :
    ∀ t now : Int,
      stocksPriceIsStale none now = false ∧
      (stocksPriceIsStale (some t) now = true ↔ now - t > 7 * msPerDay) ∧
      (getDaysAgoColor t now = "error.main" ↔ |now - t|.fdiv msPerDay > 2) := by
  intro t now
  refine ⟨rfl, ?_, ?_⟩
  · simp only [stocksPriceIsStale, decide_eq_true_eq]
    omega
  · simp only [getDaysAgoColor]
    split_ifs with h
    · simp [h]
    · constructor
      · intro hs; exact absurd hs (by decide)
      · intro hgt; exact absurd hgt h

/-- Witness for staleness_raw_ms_amended: a timestamp three days old is
colored stale on the holdings screen. -/
theorem staleness_raw_ms_amended_witness :
    getDaysAgoColor 0 (3 * msPerDay) = "error.main" :=
  (staleness_raw_ms_amended 0 (3 * msPerDay)).2.2.mpr (by decide)

/-- C7: getDaysAgo maps a null timestamp to the empty label, and a present
one to Today, 1 day ago, Future date or the n-days-ago label according to
the midnight-normalized day difference; being a total Lean function it never
throws. -/
theorem getDaysAgo_label_spec :
    (∀ now : Int, getDaysAgo none now = "") ∧
    (∀ d now : Int,
      (midnightDayDiff d now = 0 → getDaysAgo (some d) now = "Today") ∧
      (midnightDayDiff d now = 1 → getDaysAgo (some d) now = "1 day ago") ∧
      (midnightDayDiff d now < 0 → getDaysAgo (some d) now = "Future date") ∧
      (2 ≤ midnightDayDiff d now →
        getDaysAgo (some d) now = toString (midnightDayDiff d now) ++ " days ago")) := by
  refine ⟨fun now => rfl, fun d now => ?_⟩
  have hd : getDaysAgo (some d) now =
      (if midnightDayDiff d now = 0 then "Today"
       else if midnightDayDiff d now = 1 then "1 day ago"
       else if midnightDayDiff d now < 0 then "Future date"
       else toString (midnightDayDiff d now) ++ " days ago") := rfl
  rw [hd]
  refine ⟨?_, ?_, ?_, ?_⟩ <;> intro h
  · rw [if_pos h]
  · rw [if_neg (by omega), if_pos h]
  · rw [if_neg (by omega), if_neg (by omega), if_pos h]
  · rw [if_neg (by omega), if_neg (by omega), if_neg (by omega)]

/-- Witness for getDaysAgo_label_spec: at the epoch instant the label is
Today. -/
theorem getDaysAgo_label_spec_witness :
    getDaysAgo (some 0) 0 = "Today" :=
  (getDaysAgo_label_spec.2 0 0).1 (by decide)

/-- C9 counterexample: getDaysAgo reads the ambient clock, so its output
does not depend only on its date argument — the same date formatted at two
clock instants gives two different labels. -/
theorem getDaysAgo_hidden_clock_counterexample :
    getDaysAgo (some 0) 0 ≠ getDaysAgo (some 0) (2 * msPerDay) := by
  decide

/-- C9 amended: every modelled engine function is deterministic in its
explicit inputs, where for getDaysAgo the inputs include the ambient clock
reading: equal date and clock give equal output, while equal date alone does
not determine the output. -/
theorem engine_deterministic_amended :
    (∀ (d : Option Int) (n1 n2 : Int), n1 = n2 → getDaysAgo d n1 = getDaysAgo d n2) ∧
    (∃ d : Option Int, ∃ n1 n2 : Int, getDaysAgo d n1 ≠ getDaysAgo d n2) ∧
    (∀ p m20 m200 : Option ℚ, getMASignal p m20 m200 = getMASignal p m20 m200) ∧
    (∀ c l h : Option ℚ, calculate52WeekPosition c l h = calculate52WeekPosition c l h) ∧
    (∀ f : List FormulaCriteria, validateFormula f = validateFormula f) ∧
    (∀ q : ℚ, formatCurrencyINR q = formatCurrencyINR q) ∧
    (∀ (hb : HoldingsBuckets) (sel : List String),
      calculateFilteredSummary hb sel = calculateFilteredSummary hb sel) := by
  refine ⟨fun d n1 n2 h => by rw [h], ⟨some 0, 0, 2 * msPerDay, by decide⟩,
    fun _ _ _ => rfl, fun _ _ _ => rfl, fun _ => rfl, fun _ => rfl, fun _ _ => rfl⟩

/-- Witness for engine_deterministic_amended at a concrete date and clock. -/
theorem engine_deterministic_amended_witness :
    getDaysAgo (some 0) msPerDay = getDaysAgo (some 0) msPerDay :=
  engine_deterministic_amended.1 (some 0) msPerDay msPerDay rfl

/-- Any n-days-ago label differs from the Future date label: their last
characters differ. -/
theorem daysAgo_ne_futureDate (n : Int) :
    toString n ++ " days ago" ≠ "Future date" := by
  intro h
  have h2 := congrArg String.data h
  rw [String.data_append] at h2
  have h3 := congrArg List.getLast? h2
  rw [List.getLast?_append_of_ne_nil _ (by decide : (" days ago").data ≠ [])] at h3
  exact absurd h3 (by decide)

/-- C10: the holdings-screen formatDaysAgo takes the absolute raw
millisecond difference, so its output is always Today, 1 day ago or an
n-days-ago label with n at least 2, and never Future date; on a timestamp
two days in the future it disagrees with the stocks-screen getDaysAgo, so
the two functions are not equivalent. -/
theorem formatDaysAgo_never_future :
    (∀ t now : Int,
      (formatDaysAgo t now = "Today" ∨ formatDaysAgo t now = "1 day ago" ∨
        ∃ n : Int, 2 ≤ n ∧ formatDaysAgo t now = toString n ++ " days ago") ∧
      formatDaysAgo t now ≠ "Future date") ∧
    formatDaysAgo (2 * msPerDay) 0 = "2 days ago" ∧
    getDaysAgo (some (2 * msPerDay)) 0 = "Future date" := by
  have key : ∀ t now : Int,
      formatDaysAgo t now = "Today" ∨ formatDaysAgo t now = "1 day ago" ∨
        ∃ n : Int, 2 ≤ n ∧ formatDaysAgo t now = toString n ++ " days ago" := by
    intro t now
    have h0 : (0:Int) ≤ |now - t|.fdiv msPerDay :=
      Int.fdiv_nonneg (abs_nonneg _) (by norm_num [msPerDay])
    have hd : formatDaysAgo t now =
        (if |now - t|.fdiv msPerDay = 0 then "Today"
         else if |now - t|.fdiv msPerDay = 1 then "1 day ago"
         else toString (|now - t|.fdiv msPerDay) ++ " days ago") := rfl
    rw [hd]
    split_ifs with h1 h2
    · exact Or.inl rfl
    · exact Or.inr (Or.inl rfl)
    · exact Or.inr (Or.inr ⟨_, by omega, rfl⟩)
  refine ⟨fun t now => ⟨key t now, ?_⟩, by decide, by decide⟩
  rcases key t now with h | h | ⟨n, hn, h⟩ <;> rw [h]
  · decide
  · decide
  · exact daysAgo_ne_futureDate n

/-- At positions after the start of the string, the comma rule of the regex
depends only on the remaining length, so the indexed walk coincides with the
structural walk. -/
theorem commaAux_shift (cs : List Char) : ∀ i n : ℕ, 0 < i → i + cs.length = n →
    commaAux n i cs = insertAllSimple cs := by
  induction cs with
  | nil => intro i n hi hn; rfl
  | cons c cs ih =>
    intro i n hi hn
    simp only [commaAux, insertAllSimple]
    simp only [List.length_cons] at hn
    have h1 : n - i = cs.length + 1 := by omega
    simp only [h1, hi, true_and]
    congr 1
    exact ih (i + 1) n (by omega) (by omega)

/-- Unfolding of the regex walk on a nonempty list: the first character never
receives a comma and the rest follows the structural walk. -/
theorem insertCommasList_cons (c : Char) (cs : List Char) :
    insertCommasList (c :: cs) = c :: insertAllSimple cs := by
  simp only [insertCommasList, List.length_cons, commaAux]
  rw [if_neg (by simp)]
  rw [commaAux_shift cs 1 (cs.length + 1) one_pos (by omega)]
  rfl

/-- Pair grouping of a nonempty list is nonempty. -/
theorem pairsFromRight_ne_nil (cs : List Char) (h : cs ≠ []) :
    pairsFromRight cs ≠ [] := by
  cases cs with
  | nil => exact absurd rfl h
  | cons c cs =>
    cases cs with
    | nil => simp [pairsFromRight]
    | cons c2 rest =>
      simp only [pairsFromRight]
      split_ifs <;> simp

/-- Unfolding of pairsFromRight on a list of even length: a pair is peeled. -/
theorem pairsFromRight_cons_cons_even (c c2 : Char) (rest : List Char)
    (h : rest.length % 2 = 0) :
    pairsFromRight (c :: c2 :: rest) = [c, c2] :: pairsFromRight rest := by
  simp only [pairsFromRight]
  rw [if_pos h]

/-- Unfolding of pairsFromRight on a list of odd length: a singleton is
peeled. -/
theorem pairsFromRight_cons_even (c : Char) (cs : List Char)
    (h : cs.length % 2 = 0) :
    pairsFromRight (c :: cs) = [c] :: pairsFromRight cs := by
  cases cs with
  | nil => rfl
  | cons c2 rest =>
    simp only [List.length_cons] at h
    simp only [pairsFromRight]
    rw [if_neg (by omega)]

/-- The structural comma walk inserts a leading comma exactly when the list
is nonempty of even length, followed by the pair groups joined with commas. -/
theorem insertAllSimple_eq_joinGroups : ∀ cs : List Char,
    insertAllSimple cs =
      (if cs.length % 2 = 0 ∧ cs ≠ [] then [','] else [])
        ++ joinGroups (pairsFromRight cs) := by
  intro cs
  induction cs with
  | nil => rfl
  | cons c cs ih =>
    simp only [insertAllSimple, List.length_cons]
    by_cases hpar : cs.length % 2 = 1
    · have hceven : (cs.length + 1) % 2 = 0 := by omega
      rw [if_pos hceven,
        if_pos (⟨hceven, by simp⟩ : (cs.length + 1) % 2 = 0 ∧ c :: cs ≠ [])]
      cases cs with
      | nil => exact absurd hpar (by decide)
      | cons c2 rest =>
        simp only [List.length_cons] at hpar
        have hrest : rest.length % 2 = 0 := by omega
        have hcond : ¬((c2 :: rest).length % 2 = 0 ∧ (c2 :: rest) ≠ []) := by
          intro hh
          have := hh.1
          simp only [List.length_cons] at this
          omega
        rw [ih, pairsFromRight_cons_cons_even c c2 rest hrest,
          pairsFromRight_cons_even c2 rest hrest, if_neg hcond]
        cases pairsFromRight rest with
        | nil => simp [joinGroups]
        | cons g gs => simp [joinGroups]
    · have hcodd : ¬((cs.length + 1) % 2 = 0) := by omega
      rw [if_neg hcodd, if_neg (fun hh => hcodd hh.1), ih]
      by_cases hnil : cs = []
      · subst hnil
        simp [joinGroups, pairsFromRight]
      · have hcnd : cs.length % 2 = 0 ∧ cs ≠ [] := ⟨by omega, hnil⟩
        rw [pairsFromRight_cons_even c cs (by omega), if_pos hcnd]
        obtain ⟨g, gs, hgs⟩ : ∃ g gs, pairsFromRight cs = g :: gs := by
          cases hcs2 : pairsFromRight cs with
          | nil => exact absurd hcs2 (pairsFromRight_ne_nil cs hnil)
          | cons g gs => exact ⟨g, gs, rfl⟩
        rw [hgs]
        simp [joinGroups]

/-- The regex replace of the source is exactly the Indian pair grouping of
the specification, joined with commas. -/
theorem insertCommasList_eq_joinGroups (cs : List Char) :
    insertCommasList cs = joinGroups (pairsFromRight cs) := by
  cases cs with
  | nil => rfl
  | cons c cs =>
    rw [insertCommasList_cons, insertAllSimple_eq_joinGroups]
    by_cases hpar : cs.length % 2 = 1
    · rw [if_neg (fun hh => by omega)]
      cases cs with
      | nil => exact absurd hpar (by decide)
      | cons c2 rest =>
        simp only [List.length_cons] at hpar
        have hrest : rest.length % 2 = 0 := by omega
        rw [pairsFromRight_cons_cons_even c c2 rest hrest,
          pairsFromRight_cons_even c2 rest hrest]
        cases pairsFromRight rest with
        | nil => simp [joinGroups]
        | cons g gs => simp [joinGroups]
    · by_cases hnil : cs = []
      · subst hnil
        simp [joinGroups, pairsFromRight, insertAllSimple]
      · have hcnd : cs.length % 2 = 0 ∧ cs ≠ [] := ⟨by omega, hnil⟩
        rw [if_pos hcnd, pairsFromRight_cons_even c cs (by omega)]
        obtain ⟨g, gs, hgs⟩ : ∃ g gs, pairsFromRight cs = g :: gs := by
          cases hcs2 : pairsFromRight cs with
          | nil => exact absurd hcs2 (pairsFromRight_ne_nil cs hnil)
          | cons g gs => exact ⟨g, gs, rfl⟩
        rw [hgs]
        simp [joinGroups]

/-- Appending a final group to a nonempty group list joins with one more
comma. -/
theorem joinGroups_append_last (gs : List (List Char)) (g : List Char)
    (h : gs ≠ []) : joinGroups (gs ++ [g]) = joinGroups gs ++ ',' :: g := by
  induction gs with
  | nil => exact absurd rfl h
  | cons g1 gs ih =>
    cases gs with
    | nil => simp [joinGroups]
    | cons g2 gs2 =>
      have e1 : joinGroups ((g1 :: g2 :: gs2) ++ [g])
          = g1 ++ ',' :: joinGroups ((g2 :: gs2) ++ [g]) := rfl
      have e2 : joinGroups (g1 :: g2 :: gs2) = g1 ++ ',' :: joinGroups (g2 :: gs2) := rfl
      rw [e1, ih (by simp), e2]
      simp [List.append_assoc]

/-- The INR branch of formatCurrency renders exactly the string described by
the specification: sign before the rupee symbol, Indian-grouped integer
part, two-decimal fraction. -/
theorem formatCurrencyINR_eq_spec (value : ℚ) :
    formatCurrencyINR value = specFormatINR value := by
  simp only [formatCurrencyINR, specFormatINR, specIndianGroups]
  set ds := (Nat.repr (toFixed2Paise |value| / 100)).data with hds
  by_cases hlen : ds.length ≤ 3
  · rw [if_pos hlen]
    have h0 : ds.length - 3 = 0 := by omega
    rw [h0]
    simp [insertCommasList, commaAux, joinGroups]
  · rw [if_neg hlen]
    have hne : ds.take (ds.length - 3) ≠ [] := by
      intro hh
      have h2 := congrArg List.length hh
      simp only [List.length_take, List.length_nil] at h2
      omega
    rw [if_pos hne]
    rw [insertCommasList_eq_joinGroups]
    rw [joinGroups_append_last _ _ (pairsFromRight_ne_nil _ hne)]

/-- C5: for INR the formatter renders two decimal digits, the Indian
grouping of the integer part (last three digits one group, pairs to the
left), the rupee symbol, and the minus sign before the symbol for negative
amounts — stated as agreement with the specification rendering on every
input, together with the concrete example 1234567.5 and its negation. -/
theorem formatCurrency_INR_spec :
    (∀ q : ℚ, formatCurrencyINR q = specFormatINR q) ∧
    formatCurrencyINR (1234567.5 : ℚ) = "₹12,34,567.50" ∧
    formatCurrencyINR (-1234567.5 : ℚ) = "-₹12,34,567.50" := by
  refine ⟨formatCurrencyINR_eq_spec, ?_, ?_⟩
  · have hp : toFixed2Paise |(1234567.5 : ℚ)| = 123456750 := by
      rw [show |(1234567.5 : ℚ)| = 1234567.5 from by norm_num]
      simp only [toFixed2Paise]
      norm_num
      decide
    simp only [formatCurrencyINR]
    rw [hp, if_neg (by norm_num : ¬((1234567.5 : ℚ) < 0))]
    decide
  · have hp : toFixed2Paise |(-1234567.5 : ℚ)| = 123456750 := by
      rw [show |(-1234567.5 : ℚ)| = 1234567.5 from by norm_num]
      simp only [toFixed2Paise]
      norm_num
      decide
    simp only [formatCurrencyINR]
    rw [hp, if_pos (by norm_num : (-1234567.5 : ℚ) < 0)]
    decide

/-- Witness for formatDaysAgo_never_future: at the epoch the label is Today,
not Future date. -/
theorem formatDaysAgo_never_future_witness :
    formatDaysAgo 0 0 ≠ "Future date" :=
  (formatDaysAgo_never_future.1 0 0).2
